import Mathlib

/-!
Verification of the ziploy CLI (src/ziploy.py) against its specification.

The source is a small deployment tool: it zips a working tree, splits the
archive into 5 MiB chunks (`generate_chunks`, lines 88-127), uploads the
chunks concurrently (`async_upload_chunks`, lines 149-200), optionally runs a
remote unpack command over ssh (`ssh_unzip`, lines 202-212), sends a finalize
request, and removes the staging directory (`cleanup`, lines 214-218) from the
CLI entry point `main` (lines 220-246).

Bytes are modelled as `Nat`, filenames as `List Char` (Python compares
strings lexicographically by code point), and the effectful pipeline as pure
functions from the externally supplied outcomes (subprocess exit codes,
per-chunk upload results, finalize success) to the list of observable events
plus a run outcome.
-/

namespace Ziploy

/-- `chunk_size = 5 * 1024 * 1024` from line 92 of src/ziploy.py. -/
def chunk_size : Nat := 5 * 1024 * 1024

/-- The splitting loop of `generate_chunks` (lines 110-116):
`for chunk in iter(lambda: f.read(chunk_size), b'')` reads `C` bytes at a
time until the read returns empty, writing each block as one chunk file.
For a non-empty list `x :: xs`, `(x :: xs).drop C = xs.drop (C - 1)`
whenever `C ≥ 1`, which is how the recursion is phrased below so that the
recursive argument shrinks; the loop is only ever run with `C = chunk_size`. -/
def readChunks (C : Nat) : List Nat → List (List Nat)
  | [] => []
  | x :: xs => ((x :: xs).take C) :: readChunks C (xs.drop (C - 1))
  termination_by l => l.length
  decreasing_by simp [List.length_drop]; omega

theorem readChunks_nil (C : Nat) : readChunks C [] = [] := by
  simp [readChunks]

theorem readChunks_cons (C : Nat) (x : Nat) (xs : List Nat) :
    readChunks C (x :: xs) = ((x :: xs).take C) :: readChunks C (xs.drop (C - 1)) := by
  simp [readChunks]

/-- For a positive chunk size the recursion consumes exactly `C` bytes per step. -/
theorem readChunks_cons_drop (C : Nat) (hC : 0 < C) (x : Nat) (xs : List Nat) :
    readChunks C (x :: xs) = ((x :: xs).take C) :: readChunks C ((x :: xs).drop C) := by
  rw [readChunks_cons]
  congr 1
  obtain ⟨k, rfl⟩ : ∃ k, C = k + 1 := ⟨C - 1, by omega⟩
  simp

/-- A non-empty input always yields at least one chunk. -/
theorem readChunks_ne_nil (C : Nat) (x : Nat) (xs : List Nat) :
    readChunks C (x :: xs) ≠ [] := by
  rw [readChunks_cons]
  simp

/-- Concatenating the chunks in sequence order reconstructs the input. -/
theorem readChunks_flatten (C : Nat) (hC : 0 < C) :
    ∀ data : List Nat, (readChunks C data).flatten = data := by
  intro data
  induction data using readChunks.induct C with
  | case1 => simp [readChunks_nil]
  | case2 x xs ih =>
    rw [readChunks_cons]
    rw [List.flatten_cons, ih]
    have h : xs.drop (C - 1) = (x :: xs).drop C := by
      obtain ⟨k, rfl⟩ : ∃ k, C = k + 1 := ⟨C - 1, by omega⟩
      simp
    rw [h, List.take_append_drop]

/-- The number of chunks is `⌈S / C⌉`, written `(S + C - 1) / C`. -/
theorem readChunks_length (C : Nat) (hC : 0 < C) :
    ∀ data : List Nat, (readChunks C data).length = (data.length + C - 1) / C := by
  intro data
  induction data using readChunks.induct C with
  | case1 =>
    rw [readChunks_nil]
    have h2 : (C - 1) / C = 0 := Nat.div_eq_of_lt (by omega)
    simp
    omega
  | case2 x xs ih =>
    rw [readChunks_cons]
    simp only [List.length_drop] at ih
    simp only [List.length_cons, ih]
    rcases Nat.lt_or_ge (xs.length + 1) C with h | h
    · have e1 : xs.length - (C - 1) + C - 1 = C - 1 := by omega
      rw [e1]
      have e2 : (C - 1) / C = 0 := Nat.div_eq_of_lt (by omega)
      rw [e2]
      have e3 : (xs.length + 1 + C - 1) / C = 1 :=
        Nat.div_eq_of_lt_le (by omega) (by omega)
      omega
    · have e2 := Nat.add_div_right (xs.length - (C - 1) + C - 1) hC
      have e1 : xs.length - (C - 1) + C - 1 + C = xs.length + 1 + C - 1 := by omega
      rw [e1] at e2
      omega

/-- Every chunk except possibly the last has exactly `C` bytes. -/
theorem readChunks_dropLast (C : Nat) (hC : 0 < C) :
    ∀ data : List Nat, ∀ c ∈ (readChunks C data).dropLast, c.length = C := by
  intro data
  induction data using readChunks.induct C with
  | case1 => simp [readChunks_nil]
  | case2 x xs ih =>
    intro c hc
    rw [readChunks_cons] at hc
    rcases Nat.lt_or_ge (xs.length + 1) C with h | h
    · have hnil : xs.drop (C - 1) = [] := List.drop_eq_nil_of_le (by omega)
      rw [hnil, readChunks_nil] at hc
      simp at hc
    · cases hd : xs.drop (C - 1) with
      | nil =>
        rw [hd, readChunks_nil] at hc
        simp at hc
      | cons y ys =>
        have hne2 : readChunks C (xs.drop (C - 1)) ≠ [] := by
          rw [hd]
          exact readChunks_ne_nil C y ys
        rw [List.dropLast_cons_of_ne_nil hne2] at hc
        rcases List.mem_cons.mp hc with heq | hc2
        · rw [heq]
          simp [List.length_take]
          omega
        · exact ih c hc2

/-- The last chunk of a non-empty input has between 1 and `C` bytes. -/
theorem readChunks_getLast (C : Nat) (hC : 0 < C) :
    ∀ data : List Nat, ∀ lc, (readChunks C data).getLast? = some lc →
      1 ≤ lc.length ∧ lc.length ≤ C := by
  intro data
  induction data using readChunks.induct C with
  | case1 =>
    intro lc h
    rw [readChunks_nil] at h
    simp at h
  | case2 x xs ih =>
    intro lc h
    rw [readChunks_cons] at h
    cases hd : readChunks C (xs.drop (C - 1)) with
    | nil =>
      rw [hd] at h
      simp at h
      subst h
      simp
      omega
    | cons y ys =>
      rw [hd, List.getLast?_cons_cons] at h
      rw [← hd] at h
      exact ih lc h

/-! ### Chunk file naming (line 113): `f"_ziploy.zip.z{chunk_index:03d}"` -/

/-- Python's `f"{n:03d}"`: the decimal digits of `n`, left-padded with `'0'`
to a minimum width of 3.  `Nat.toDigits 10 n` is the decimal digit string. -/
def pad3 (n : Nat) : List Char :=
  List.replicate (3 - (Nat.toDigits 10 n).length) '0' ++ Nat.toDigits 10 n

/-- The chunk file name `"_ziploy.zip.z" + f"{i:03d}"` from line 113. -/
def chunkName (i : Nat) : List Char := "_ziploy.zip.z".toList ++ pad3 i

/-- Python string `<`: lexicographic comparison by code point, a strict
prefix being smaller. -/
def lexLt : List Char → List Char → Bool
  | [], [] => false
  | [], _ :: _ => true
  | _ :: _, [] => false
  | a :: as, b :: bs => if a < b then true else if b < a then false else lexLt as bs

/-- Python string `<=` as used implicitly by `sorted` (line 131). -/
def lexLeB : List Char → List Char → Bool
  | [], _ => true
  | _ :: _, [] => false
  | a :: as, b :: bs => if a < b then true else if b < a then false else lexLeB as bs

def lexLe (a b : List Char) : Prop := lexLeB a b = true

instance : DecidableRel lexLe :=
  fun a b => inferInstanceAs (Decidable (lexLeB a b = true))

theorem toDigitsCore_succ (fuel n : Nat) (ds : List Char) :
    Nat.toDigitsCore 10 (fuel + 1) n ds =
      if n / 10 = 0 then Nat.digitChar (n % 10) :: ds
      else Nat.toDigitsCore 10 fuel (n / 10) (Nat.digitChar (n % 10) :: ds) := rfl

theorem toDigitsCore_small (fuel n : Nat) (ds : List Char) (hf : 1 ≤ fuel) (hn : n < 10) :
    Nat.toDigitsCore 10 fuel n ds = Nat.digitChar n :: ds := by
  obtain ⟨f, rfl⟩ : ∃ f, fuel = f + 1 := ⟨fuel - 1, by omega⟩
  rw [toDigitsCore_succ, if_pos (by omega), Nat.mod_eq_of_lt hn]

theorem toDigitsCore_step (fuel n : Nat) (ds : List Char) (hf : 1 ≤ fuel) (hn : 10 ≤ n) :
    Nat.toDigitsCore 10 fuel n ds =
      Nat.toDigitsCore 10 (fuel - 1) (n / 10) (Nat.digitChar (n % 10) :: ds) := by
  obtain ⟨f, rfl⟩ : ∃ f, fuel = f + 1 := ⟨fuel - 1, by omega⟩
  rw [toDigitsCore_succ, if_neg (by omega)]
  simp

theorem toDigits_lt10 (n : Nat) (h : n < 10) :
    Nat.toDigits 10 n = [Nat.digitChar n] := by
  unfold Nat.toDigits
  exact toDigitsCore_small _ _ _ (by omega) h

theorem toDigits_lt100 (n : Nat) (h1 : 10 ≤ n) (h2 : n < 100) :
    Nat.toDigits 10 n = [Nat.digitChar (n / 10), Nat.digitChar (n % 10)] := by
  unfold Nat.toDigits
  rw [toDigitsCore_step _ _ _ (by omega) h1]
  exact toDigitsCore_small _ _ _ (by omega) (by omega)

theorem toDigits_lt1000 (n : Nat) (h1 : 100 ≤ n) (h2 : n < 1000) :
    Nat.toDigits 10 n =
      [Nat.digitChar (n / 100), Nat.digitChar (n / 10 % 10), Nat.digitChar (n % 10)] := by
  unfold Nat.toDigits
  rw [toDigitsCore_step _ _ _ (by omega) (by omega)]
  rw [toDigitsCore_step _ _ _ (by omega) (by omega)]
  rw [toDigitsCore_small _ _ _ (by omega) (by omega)]
  have e : n / 10 / 10 = n / 100 := by omega
  rw [e]

/-- For indices up to 999 the padded name is the three decimal digits. -/
theorem pad3_eq_triple (n : Nat) (h : n ≤ 999) :
    pad3 n = [Nat.digitChar (n / 100), Nat.digitChar (n / 10 % 10), Nat.digitChar (n % 10)] := by
  rcases Nat.lt_or_ge n 10 with h1 | h1
  · have e1 : n / 100 = 0 := by omega
    have e2 : n / 10 % 10 = 0 := by omega
    have e3 : n % 10 = n := by omega
    rw [e1, e2, e3]
    rw [pad3, toDigits_lt10 n h1]
    rfl
  · rcases Nat.lt_or_ge n 100 with h2 | h2
    · have e1 : n / 100 = 0 := by omega
      have e2 : n / 10 % 10 = n / 10 := by omega
      rw [e1, e2]
      rw [pad3, toDigits_lt100 n h1 h2]
      rfl
    · rw [pad3, toDigits_lt1000 n h2 (by omega)]
      rfl

theorem pad3_length_of_le (n : Nat) (h : n ≤ 999) : (pad3 n).length = 3 := by
  rw [pad3_eq_triple n h]
  rfl

/-- Decimal digit characters are strictly ordered like the digits themselves. -/
theorem digitChar_mono : ∀ b < 10, ∀ a < b, Nat.digitChar a < Nat.digitChar b := by
  decide

theorem lexLt_cons_of_lt {a b : Char} (as bs : List Char) (h : a < b) :
    lexLt (a :: as) (b :: bs) = true := by
  simp [lexLt, h]

theorem lexLt_cons_self (a : Char) (as bs : List Char) :
    lexLt (a :: as) (a :: bs) = lexLt as bs := by
  simp [lexLt, lt_irrefl]

theorem lexLt_append (p : List Char) :
    ∀ a b, lexLt (p ++ a) (p ++ b) = lexLt a b := by
  induction p with
  | nil => intro a b; rfl
  | cons c cs ih =>
    intro a b
    rw [List.cons_append, List.cons_append, lexLt_cons_self]
    exact ih a b

/-- Chunk names are strictly increasing in the index as long as the index
stays within the three-digit range. -/
theorem chunkName_lt (i j : Nat) (hij : i < j) (hj : j ≤ 999) :
    lexLt (chunkName i) (chunkName j) = true := by
  unfold chunkName
  rw [lexLt_append, pad3_eq_triple i (by omega), pad3_eq_triple j hj]
  rcases Nat.lt_trichotomy (i / 100) (j / 100) with h1 | h1 | h1
  · exact lexLt_cons_of_lt _ _ (digitChar_mono (j / 100) (by omega) (i / 100) h1)
  · rw [h1, lexLt_cons_self]
    rcases Nat.lt_trichotomy (i / 10 % 10) (j / 10 % 10) with h2 | h2 | h2
    · exact lexLt_cons_of_lt _ _ (digitChar_mono (j / 10 % 10) (by omega) _ h2)
    · rw [h2, lexLt_cons_self]
      have h3 : i % 10 < j % 10 := by omega
      exact lexLt_cons_of_lt _ _ (digitChar_mono (j % 10) (by omega) _ h3)
    · omega
  · omega

theorem lexLeB_refl : ∀ a, lexLeB a a = true := by
  intro a
  induction a with
  | nil => rfl
  | cons x xs ih => simp [lexLeB, lt_irrefl, ih]

theorem lexLeB_total : ∀ a b, lexLeB a b = true ∨ lexLeB b a = true := by
  intro a
  induction a with
  | nil => intro b; left; rfl
  | cons x xs ih =>
    intro b
    cases b with
    | nil => right; rfl
    | cons y ys =>
      rcases lt_trichotomy x y with h | h | h
      · left; simp [lexLeB, h]
      · subst h
        rcases ih ys with h2 | h2
        · left; simp [lexLeB, lt_irrefl, h2]
        · right; simp [lexLeB, lt_irrefl, h2]
      · right; simp [lexLeB, h]

theorem lexLeB_trans :
    ∀ a b c, lexLeB a b = true → lexLeB b c = true → lexLeB a c = true := by
  intro a
  induction a with
  | nil => intro b c _ _; rfl
  | cons x xs ih =>
    intro b c hab hbc
    cases b with
    | nil => simp [lexLeB] at hab
    | cons y ys =>
      cases c with
      | nil => simp [lexLeB] at hbc
      | cons z zs =>
        rcases lt_trichotomy x y with h1 | h1 | h1
        · rcases lt_trichotomy y z with h2 | h2 | h2
          · exact (by simp [lexLeB, lt_trans h1 h2] : lexLeB (x :: xs) (z :: zs) = true)
          · subst h2; simp [lexLeB, h1]
          · simp [lexLeB, h2, asymm h2] at hbc
        · subst h1
          rw [lexLeB, if_neg (lt_irrefl x), if_neg (lt_irrefl x)] at hab
          rcases lt_trichotomy x z with h2 | h2 | h2
          · simp [lexLeB, h2]
          · subst h2
            rw [lexLeB, if_neg (lt_irrefl x), if_neg (lt_irrefl x)] at hbc ⊢
            exact ih ys zs hab hbc
          · simp [lexLeB, h2, asymm h2] at hbc
        · simp [lexLeB, h1, asymm h1] at hab

instance : IsRefl (List Char) lexLe := ⟨fun a => lexLeB_refl a⟩

instance : IsTotal (List Char) lexLe := ⟨fun a b => lexLeB_total a b⟩

instance : IsTrans (List Char) lexLe := ⟨fun a b c => lexLeB_trans a b c⟩

/-! ### `get_chunk_files` (lines 129-131) and the upload task list (lines 167-170) -/

/-- The filename prefix filter from line 131: `f.startswith("_ziploy.zip.z")`. -/
def ziployPat : List Char := "_ziploy.zip.z".toList

/-- `get_chunk_files` (lines 129-131): keep the directory entries that start
with the chunk prefix and sort them, as Python's `sorted` does, in ascending
lexicographic order. -/
def get_chunk_files (listing : List (List Char)) : List (List Char) :=
  List.insertionSort lexLe (listing.filter (fun f => ziployPat.isPrefixOf f))

/-- The loop of lines 167-170: one upload task per chunk file, in order, the
task for index `idx` carrying `last_chunk = (idx == len(chunk_files) - 1)`. -/
def buildTasks (files : List (List Char)) : List (List Char × Bool) :=
  files.enum.map (fun p => (p.2, p.1 == files.length - 1))

theorem enumFrom_marked_filter (k : Nat) :
    ∀ (l : List (List Char)) (s : Nat) (m : List Char),
      l.getLast? = some m → s + l.length - 1 = k →
      (((List.enumFrom s l).map (fun p => (p.2, p.1 == k))).filter
          (fun t => t.2)).map (fun t => t.1) = [m] := by
  intro l
  induction l with
  | nil =>
    intro s m hm _
    simp at hm
  | cons a l ih =>
    intro s m hm hk
    cases l with
    | nil =>
      simp at hm
      subst hm
      have hs : s = k := by simp at hk; omega
      subst hs
      simp [List.enumFrom]
    | cons b l2 =>
      have hne : b :: l2 ≠ ([] : List (List Char)) := by simp
      rw [List.getLast?_cons_cons] at hm
      have hmark : (s == k) = false := by
        have : s ≠ k := by
          simp at hk
          omega
        simp [this]
      rw [List.enumFrom]
      simp only [List.map_cons, List.filter_cons, hmark, Bool.false_eq_true, if_false]
      exact ih (s + 1) m hm (by simp at hk ⊢; omega)

/-- In a sorted list the last element is an upper bound of every element. -/
theorem sorted_last_le :
    ∀ (l : List (List Char)) (m : List Char),
      l.Sorted lexLe → l.getLast? = some m → ∀ x ∈ l, lexLe x m := by
  intro l
  induction l with
  | nil =>
    intro m _ hm
    simp at hm
  | cons a t ih =>
    intro m hs hm x hx
    cases t with
    | nil =>
      simp at hm hx
      subst hm
      subst hx
      exact lexLeB_refl x
    | cons b t2 =>
      have hne : b :: t2 ≠ ([] : List (List Char)) := by simp
      rw [List.getLast?_cons_cons] at hm
      rcases List.mem_cons.mp hx with rfl | hx2
      · have hmem : m ∈ b :: t2 := List.mem_of_getLast?_eq_some hm
        exact (List.sorted_cons.mp hs).1 m hmem
      · exact ih m (List.sorted_cons.mp hs).2 hm x hx2

/-! ### Observable behaviour of the pipeline

The effectful part of the program is modelled as pure functions from the
externally supplied outcomes (subprocess exit codes, per-chunk upload
results, finalize response status) to the list of observable events plus the
run outcome.  `asyncio.gather(*tasks, return_exceptions=True)` (line 171)
waits for every task and returns one result per task in task order, turning
raised exceptions into values, so the upload results are an oracle indexed
by chunk position. -/

/-- An observable action of the program. -/
inductive Event where
  | stagingCreated
  | upload (filename : List Char) (lastMarker : Bool) (verifySsl : Bool)
  | logChunkError
  | sshExec (command : Option String)
  | exitProc (code : Nat)
  | finalize (ziployId : String) (package destination : Option String)
      (method : String) (verifySsl : Bool)
  | cleanupStaging
deriving DecidableEq

/-- One entry of the list returned by `asyncio.gather(..., return_exceptions=True)`
(line 171): an exception, a JSON dict, or some non-dict JSON value.  In a
dict response the `package` and `destination` keys may each be absent
(outer `none`) or present (outer `some`) with a value that is either JSON
`null` (`some none`) or a string (`some (some s)`) — the distinction
matters because line 178 tests key presence (`'package' in resp`), not the
values. -/
inductive UploadResult where
  | exn
  | ack (package destination : Option (Option String))
  | other
deriving DecidableEq

/-- How the process run ends: normally, via `sys.exit(code)`, or with an
uncaught exception propagating (non-zero process exit with a traceback). -/
inductive RunOutcome where
  | ok
  | exited (code : Nat)
  | raised
deriving DecidableEq

/-- `SSH_CONFIG` as built by `parse_ssh_config` (lines 53-58). -/
structure SSHConfig where
  user : String
  host : String
  port : Nat
  key : String
deriving DecidableEq

/-- The `ssh_params` dict (line 159): keys `command` and `config`;
`ssh_params.get("command")` may be absent, hence the `Option`. -/
structure SshParams where
  command : Option String
  config : SSHConfig
deriving DecidableEq

/-- Outcomes of the run decided by the outside world: the working tree's
archive bytes, the zip and split subprocess results, the per-chunk upload
results, the ssh exit status and the finalize response status. -/
structure World where
  archive : List Nat
  zipOk : Bool
  splitOk : Bool
  respOf : Nat → UploadResult
  sshExitCode : Nat
  finalizeOk : Bool

/-- Python's `str.upper()` on the ASCII method names used here. -/
def pyUpper (s : String) : String := ⟨s.toList.map Char.toUpper⟩

/-- The whitespace characters removed by Python's `str.strip()`. -/
def isSpaceChar (c : Char) : Bool :=
  c = ' ' || c = '\t' || c = '\n' || c = '\x0d' || c = '\x0b' || c = '\x0c'

/-- Python's `str.strip()`: drop leading and trailing whitespace. -/
def pyStrip (s : String) : String :=
  ⟨((s.toList.dropWhile isSpaceChar).reverse.dropWhile isSpaceChar).reverse⟩

/-- Python's `int()` on a string of decimal digits. -/
def pyToNat (l : List Char) : Nat := l.foldl (fun a c => a * 10 + (c.toNat - 48)) 0

/-- The aggregation loop of lines 172-179: starting from
`package, destination = None, None`, each response that is a dict with both
a `package` and a `destination` KEY (`'package' in resp and 'destination'
in resp`) overwrites the pair with those keys' values — even when the
values are JSON `null`. -/
def foldPackageDest (rs : List UploadResult) : Option String × Option String :=
  rs.foldl
    (fun pd r =>
      match r with
      | .ack (some pv) (some dv) => (pv, dv)
      | .ack _ _ => pd
      | _ => pd)
    (none, none)

/-- Line 175: each response that is an exception is logged as an error. -/
def chunkErrorLogs (rs : List UploadResult) : List Event :=
  rs.filterMap (fun r => match r with | .exn => some Event.logChunkError | _ => none)

/-- `ssh_unzip` (lines 202-212): runs the remote command once; a non-zero
exit status is fatal (`sys.exit(1)`).  Returns the events and whether the
process died. -/
def ssh_unzip (command : Option String) (exitCode : Nat) : List Event × Bool :=
  ([Event.sshExec command], exitCode != 0)

/-- `async_upload_chunks` (lines 149-200): enumerate and sort the chunk
files, start one upload task per chunk (the sorted-last one marked `last`),
gather all results, fold the acknowledgements, then — only when
`ziployMethod.upper() == "SSH"` and `ssh_params is not None` — call
`ssh_unzip` before the finalize POST; the finalize POST carries the
aggregated pair and raises on a bad status. -/
def async_upload_chunks (ziployId : String) (verify_ssl : Bool)
    (listing : List (List Char)) (ziployMethod : String)
    (ssh_params : Option SshParams) (w : World) : List Event × RunOutcome :=
  let chunk_files := get_chunk_files listing
  let uploadEvents :=
    (buildTasks chunk_files).map (fun t => Event.upload t.1 t.2 verify_ssl)
  let responses := (List.range chunk_files.length).map w.respOf
  let pd := foldPackageDest responses
  let preEvents := uploadEvents ++ chunkErrorLogs responses
  let finalizeStep := fun (evs : List Event) =>
    let evs2 := evs ++ [Event.finalize ziployId pd.1 pd.2 ziployMethod verify_ssl]
    if w.finalizeOk then (evs2, RunOutcome.ok) else (evs2, RunOutcome.raised)
  if pyUpper ziployMethod = "SSH" then
    match ssh_params with
    | some p =>
        let sshStep := ssh_unzip p.command w.sshExitCode
        if sshStep.2 then (preEvents ++ sshStep.1 ++ [Event.exitProc 1], RunOutcome.exited 1)
        else finalizeStep (preEvents ++ sshStep.1)
    | none => finalizeStep preEvents
  else finalizeStep preEvents

/-- `validate_args` (lines 30-34): the remote-host URL scheme (the part
before the first `:`, as `urlparse` extracts it) must be `http` or `https`. -/
def validate_args (ziployRemoteHost : String) : Bool :=
  let scheme := ((ziployRemoteHost.toList.takeWhile (fun c => c ≠ ':')).asString)
  scheme == "http" || scheme == "https"

/-- `parse_ssh_config` (lines 36-58): fewer than 3 values is an error; with
exactly 3 the port defaults to 22; with 4 or more the third must be all
digits.  Each value is stripped and must be non-empty.  `none` models
`parser.error` (process exit). -/
def parse_ssh_config (ssh_config : List String) : Option SSHConfig :=
  if ssh_config.length < 3 then none
  else if ssh_config.length = 3 then
    match ssh_config with
    | [u, h, k] =>
      if pyStrip u = "" ∨ pyStrip h = "" ∨ pyStrip k = "" then none
      else some ⟨pyStrip u, pyStrip h, 22, pyStrip k⟩
    | _ => none
  else
    match ssh_config.take 4 with
    | [u, h, ps, k] =>
      if (pyStrip ps).toList = [] ∨ ¬((pyStrip ps).toList.all Char.isDigit) then none
      else if pyStrip u = "" ∨ pyStrip h = "" ∨ pyStrip k = "" then none
      else some ⟨pyStrip u, pyStrip h, pyToNat (pyStrip ps).toList, pyStrip k⟩
    | _ => none

/-- `generate_chunks` (lines 88-127): recreate the staging directory, zip
(fatal on error), split into chunks (fatal on error), delete the source zip.
On success the staging directory holds exactly the chunk files
`_ziploy.zip.z000`, `_ziploy.zip.z001`, ... for the split of the archive. -/
def generate_chunks_run (archive : List Nat) (zipOk splitOk : Bool) :
    List Event × Option (List (List Char)) :=
  if !zipOk then ([Event.stagingCreated, Event.exitProc 1], none)
  else if !splitOk then ([Event.stagingCreated, Event.exitProc 1], none)
  else ([Event.stagingCreated],
        some ((List.range (readChunks chunk_size archive).length).map chunkName))

/-- The parsed CLI arguments (lines 221-229): positional `ziployMethod`
(default `"SSH"`), `ziployId`, `ziployRemoteHost`, variadic `ssh_config`,
flag `--verbose`. -/
structure Args where
  ziployMethod : String
  ziployId : String
  ziployRemoteHost : String
  ssh_config : List String
  verbose : Bool

/-- `main` (lines 220-246): validate, parse the SSH config when the method
is SSH, generate chunks, then run the uploads and finally `cleanup()`.
Line 242 is `asyncio.run(async_upload_chunks(args.ziployRemoteHost,
args.ziployId, False, "__to_ziploy"))`: `verify_ssl` is the literal `False`
and neither `ziployMethod` nor `ssh_params` is passed, so the defaults
`"HTTP"` and `None` from line 149 apply regardless of `args.ziployMethod`.
There is no `try`/`finally`, so `cleanup()` runs only when the upload phase
returns normally. -/
def main_run (args : Args) (w : World) : List Event × RunOutcome :=
  if !(validate_args args.ziployRemoteHost) then ([Event.exitProc 2], RunOutcome.exited 2)
  else if pyUpper args.ziployMethod = "SSH" ∧ (parse_ssh_config args.ssh_config).isNone then
    ([Event.exitProc 2], RunOutcome.exited 2)
  else
    match generate_chunks_run w.archive w.zipOk w.splitOk with
    | (evs, none) => (evs, RunOutcome.exited 1)
    | (evs, some listing) =>
      let r := async_upload_chunks args.ziployId false listing "HTTP" none w
      match r.2 with
      | RunOutcome.ok => (evs ++ r.1 ++ [Event.cleanupStaging], RunOutcome.ok)
      | o => (evs ++ r.1, o)

/-! ### Event discriminators -/

def isUploadEv : Event → Bool
  | .upload _ _ _ => true
  | _ => false

def isLogErrEv : Event → Bool
  | .logChunkError => true
  | _ => false

def isSshEv : Event → Bool
  | .sshExec _ => true
  | _ => false

def isFinalizeEv : Event → Bool
  | .finalize _ _ _ _ _ => true
  | _ => false

def isCleanupEv : Event → Bool
  | .cleanupStaging => true
  | _ => false

def outcomeIsOk : RunOutcome → Bool
  | .ok => true
  | _ => false

/-- `true` exactly on the HTTP requests (chunk uploads and finalize) whose
`ssl` argument enables certificate verification. -/
def httpVerifyOn : Event → Bool
  | .upload _ _ v => v
  | .finalize _ _ _ _ v => v
  | _ => false

/-- A successful dict acknowledgement in which both the `package` and the
`destination` key are present (their values may still be null): exactly
the responses that pass the guard of line 178. -/
def ackPair : UploadResult → Option (Option String × Option String)
  | .ack (some pv) (some dv) => some (pv, dv)
  | _ => none

/-- The code's aggregation contract in words: keep the values of the most
recently seen dict acknowledgement that has both keys — null values
included — and nulls when no response has both keys. -/
def specLastPresentPair (rs : List UploadResult) : Option String × Option String :=
  match (rs.filterMap ackPair).getLast? with
  | some pd => (pd.1, pd.2)
  | none => (none, none)

/-- The claim's (and spec §3's) words: keep the most recently seen
NON-NULL package/destination pair, a null or partial acknowledgement never
overwriting it. -/
def specLastNonNullPair (rs : List UploadResult) : Option String × Option String :=
  match (rs.filterMap (fun r =>
      match r with
      | UploadResult.ack (some (some pv)) (some (some dv)) => some (pv, dv)
      | _ => none)).getLast? with
  | some pd => (some pd.1, some pd.2)
  | none => (none, none)

/-! ### Behavioural lemmas -/

theorem async_upload_chunks_none_fst (ziployId : String) (verify_ssl : Bool)
    (listing : List (List Char)) (ziployMethod : String) (w : World) :
    (async_upload_chunks ziployId verify_ssl listing ziployMethod none w).1 =
      ((buildTasks (get_chunk_files listing)).map
          (fun t => Event.upload t.1 t.2 verify_ssl) ++
        chunkErrorLogs ((List.range (get_chunk_files listing).length).map w.respOf)) ++
      [Event.finalize ziployId
        (foldPackageDest ((List.range (get_chunk_files listing).length).map w.respOf)).1
        (foldPackageDest ((List.range (get_chunk_files listing).length).map w.respOf)).2
        ziployMethod verify_ssl] := by
  unfold async_upload_chunks
  by_cases h : pyUpper ziployMethod = "SSH" <;>
    simp only [h, if_true, if_false] <;>
    cases w.finalizeOk <;> simp

theorem async_upload_chunks_none_snd (ziployId : String) (verify_ssl : Bool)
    (listing : List (List Char)) (ziployMethod : String) (w : World) :
    (async_upload_chunks ziployId verify_ssl listing ziployMethod none w).2 =
      if w.finalizeOk then RunOutcome.ok else RunOutcome.raised := by
  unfold async_upload_chunks
  by_cases h : pyUpper ziployMethod = "SSH" <;>
    simp only [h, if_true, if_false] <;>
    cases w.finalizeOk <;> simp

theorem async_upload_chunks_ssh_fatal (ziployId : String) (verify_ssl : Bool)
    (listing : List (List Char)) (ziployMethod : String) (p : SshParams) (w : World)
    (hm : pyUpper ziployMethod = "SSH") (hs : w.sshExitCode ≠ 0) :
    async_upload_chunks ziployId verify_ssl listing ziployMethod (some p) w =
      (((buildTasks (get_chunk_files listing)).map
          (fun t => Event.upload t.1 t.2 verify_ssl) ++
        chunkErrorLogs ((List.range (get_chunk_files listing).length).map w.respOf)) ++
        [Event.sshExec p.command] ++ [Event.exitProc 1],
       RunOutcome.exited 1) := by
  unfold async_upload_chunks ssh_unzip
  simp only [hm, if_true]
  have hb : (w.sshExitCode != 0) = true := by
    simp [hs]
  simp [hb]

theorem mem_uploadSeg {v : Bool} {ts : List (List Char × Bool)} {e : Event}
    (h : e ∈ ts.map (fun t => Event.upload t.1 t.2 v)) :
    ∃ f l, e = Event.upload f l v := by
  rcases List.mem_map.mp h with ⟨t, _, rfl⟩
  exact ⟨t.1, t.2, rfl⟩

theorem mem_chunkErrorLogs {rs : List UploadResult} {e : Event}
    (h : e ∈ chunkErrorLogs rs) : e = Event.logChunkError := by
  rcases List.mem_filterMap.mp h with ⟨r, _, hr⟩
  cases r <;> simp_all

theorem uploadSeg_filter_eq_nil {v : Bool} (ts : List (List Char × Bool))
    (p : Event → Bool) (hp : ∀ f l, p (Event.upload f l v) = false) :
    (ts.map (fun t => Event.upload t.1 t.2 v)).filter p = [] := by
  rw [List.filter_eq_nil_iff]
  intro e he
  rcases mem_uploadSeg he with ⟨f, l, rfl⟩
  simp [hp]

theorem uploadSeg_filter_self {v : Bool} (ts : List (List Char × Bool)) :
    (ts.map (fun t => Event.upload t.1 t.2 v)).filter isUploadEv =
      ts.map (fun t => Event.upload t.1 t.2 v) := by
  rw [List.filter_eq_self]
  intro e he
  rcases mem_uploadSeg he with ⟨f, l, rfl⟩
  rfl

theorem chunkErrorLogs_filter_eq_nil (rs : List UploadResult)
    (p : Event → Bool) (hp : p Event.logChunkError = false) :
    (chunkErrorLogs rs).filter p = [] := by
  rw [List.filter_eq_nil_iff]
  intro e he
  rw [mem_chunkErrorLogs he]
  simp [hp]

theorem chunkErrorLogs_filter_self (rs : List UploadResult) :
    (chunkErrorLogs rs).filter isLogErrEv = chunkErrorLogs rs := by
  rw [List.filter_eq_self]
  intro e he
  rw [mem_chunkErrorLogs he]
  rfl

theorem chunkErrorLogs_length_all_exn (rs : List UploadResult)
    (h : ∀ r ∈ rs, r = UploadResult.exn) :
    (chunkErrorLogs rs).length = rs.length := by
  induction rs with
  | nil => rfl
  | cons r rs ih =>
    have hr : r = UploadResult.exn := h r (List.mem_cons_self r rs)
    subst hr
    simp only [chunkErrorLogs, List.filterMap_cons] at *
    simp only [List.length_cons]
    rw [ih (fun x hx => h x (List.mem_cons_of_mem _ hx))]

theorem foldPackageDest_all_exn (rs : List UploadResult)
    (h : ∀ r ∈ rs, r = UploadResult.exn) :
    foldPackageDest rs = (none, none) := by
  have key : ∀ (init : Option String × Option String),
      rs.foldl
        (fun pd r =>
          match r with
          | .ack (some pv) (some dv) => (pv, dv)
          | .ack _ _ => pd
          | _ => pd) init = init := by
    induction rs with
    | nil => intro init; rfl
    | cons r rs ih =>
      intro init
      have hr : r = UploadResult.exn := h r (List.mem_cons_self r rs)
      subst hr
      simpa using ih (fun x hx => h x (List.mem_cons_of_mem _ hx)) init
  exact key (none, none)

theorem foldPackageDest_snoc_nopair (l : List UploadResult) (r : UploadResult)
    (h : ackPair r = none) : foldPackageDest (l ++ [r]) = foldPackageDest l := by
  rw [foldPackageDest, foldPackageDest, List.foldl_append]
  cases r with
  | exn => rfl
  | other => rfl
  | ack p d => cases p <;> cases d <;> simp_all [ackPair]

theorem foldPackageDest_snoc_pair (l : List UploadResult) (pv dv : Option String) :
    foldPackageDest (l ++ [UploadResult.ack (some pv) (some dv)]) = (pv, dv) := by
  rw [foldPackageDest, List.foldl_append]
  rfl

theorem specLastPresentPair_snoc_nopair (l : List UploadResult) (r : UploadResult)
    (h : ackPair r = none) :
    specLastPresentPair (l ++ [r]) = specLastPresentPair l := by
  unfold specLastPresentPair
  rw [List.filterMap_append]
  simp [List.filterMap, h]

theorem specLastPresentPair_snoc_pair (l : List UploadResult) (pv dv : Option String) :
    specLastPresentPair (l ++ [UploadResult.ack (some pv) (some dv)]) = (pv, dv) := by
  unfold specLastPresentPair
  rw [List.filterMap_append]
  have : (([UploadResult.ack (some pv) (some dv)]).filterMap ackPair) = [(pv, dv)] := by
    simp [ackPair]
  rw [this, List.getLast?_concat]

/-- The fold of lines 172-179 keeps exactly the values of the most
recently seen acknowledgement in which both keys are present. -/
theorem foldPackageDest_eq_spec (rs : List UploadResult) :
    foldPackageDest rs = specLastPresentPair rs := by
  induction rs using List.reverseRecOn with
  | nil => rfl
  | append_singleton l r ih =>
    cases hap : ackPair r with
    | none =>
      rw [foldPackageDest_snoc_nopair l r hap, specLastPresentPair_snoc_nopair l r hap, ih]
    | some pd =>
      cases r with
      | exn => simp [ackPair] at hap
      | other => simp [ackPair] at hap
      | ack p d =>
        cases p with
        | none => simp [ackPair] at hap
        | some pv =>
          cases d with
          | none => simp [ackPair] at hap
          | some dv =>
            rw [foldPackageDest_snoc_pair, specLastPresentPair_snoc_pair]

theorem async_none_no_ssh (ziployId : String) (verify_ssl : Bool)
    (listing : List (List Char)) (ziployMethod : String) (w : World) :
    (async_upload_chunks ziployId verify_ssl listing ziployMethod none w).1.filter
      isSshEv = [] := by
  rw [async_upload_chunks_none_fst, List.filter_append, List.filter_append]
  rw [uploadSeg_filter_eq_nil _ _ (fun f l => rfl)]
  rw [chunkErrorLogs_filter_eq_nil _ _ rfl]
  rfl

theorem async_none_no_cleanup (ziployId : String) (verify_ssl : Bool)
    (listing : List (List Char)) (ziployMethod : String) (w : World) :
    (async_upload_chunks ziployId verify_ssl listing ziployMethod none w).1.filter
      isCleanupEv = [] := by
  rw [async_upload_chunks_none_fst, List.filter_append, List.filter_append]
  rw [uploadSeg_filter_eq_nil _ _ (fun f l => rfl)]
  rw [chunkErrorLogs_filter_eq_nil _ _ rfl]
  rfl

theorem async_false_no_verify (ziployId : String)
    (listing : List (List Char)) (ziployMethod : String) (w : World) :
    (async_upload_chunks ziployId false listing ziployMethod none w).1.filter
      httpVerifyOn = [] := by
  rw [async_upload_chunks_none_fst, List.filter_append, List.filter_append]
  rw [uploadSeg_filter_eq_nil _ _ (fun f l => rfl)]
  rw [chunkErrorLogs_filter_eq_nil _ _ rfl]
  rfl

theorem generate_chunks_run_zip_fail (archive : List Nat) (splitOk : Bool) :
    generate_chunks_run archive false splitOk =
      ([Event.stagingCreated, Event.exitProc 1], none) := rfl

theorem generate_chunks_run_split_fail (archive : List Nat) :
    generate_chunks_run archive true false =
      ([Event.stagingCreated, Event.exitProc 1], none) := rfl

theorem generate_chunks_run_ok (archive : List Nat) :
    generate_chunks_run archive true true =
      ([Event.stagingCreated],
       some ((List.range (readChunks chunk_size archive).length).map chunkName)) := rfl

/-! ### Claim theorems -/

/-- C2: the claim says that in every run whose deployment method is SSH the
remote unpack bridge is invoked exactly once, after the uploads and before
finalize.  In fact `main` (line 242) never passes `ziployMethod` or
`ssh_params` to `async_upload_chunks`, so the defaults `"HTTP"`/`None`
apply and `ssh_unzip` is never executed in any run, whatever the
command-line arguments: the trace of `main_run` contains no ssh event. -/
theorem C2_ssh_bridge_never_invoked (args : Args) (w : World) :
    (main_run args w).1.filter isSshEv = [] := by
  unfold main_run
  by_cases hv : validate_args args.ziployRemoteHost
  · rw [if_neg (by simp [hv])]
    by_cases hp : pyUpper args.ziployMethod = "SSH" ∧ (parse_ssh_config args.ssh_config).isNone
    · rw [if_pos hp]
      rfl
    · rw [if_neg hp]
      cases hz : w.zipOk with
      | false =>
        rw [generate_chunks_run_zip_fail]
        rfl
      | true =>
        cases hsp : w.splitOk with
        | false =>
          rw [generate_chunks_run_split_fail]
          rfl
        | true =>
          rw [generate_chunks_run_ok]
          simp only [async_upload_chunks_none_snd]
          cases hf : w.finalizeOk
          · simp only [Bool.false_eq_true, if_false]
            rw [List.filter_append, async_none_no_ssh]
            rfl
          · rw [if_pos rfl]
            rw [List.filter_append, List.filter_append, async_none_no_ssh]
            rfl
  · rw [if_pos (by simp [hv])]
    rfl


/-- C10: every HTTP request of a CLI run — each chunk upload and the
finalize request — is issued with SSL certificate verification disabled
(`main` passes the literal `False` at line 242), and this holds for every
combination of command-line arguments: no option enables verification. -/
theorem C10_verify_ssl_always_disabled (args : Args) (w : World) :
    (main_run args w).1.filter httpVerifyOn = [] := by
  unfold main_run
  by_cases hv : validate_args args.ziployRemoteHost
  · rw [if_neg (by simp [hv])]
    by_cases hp : pyUpper args.ziployMethod = "SSH" ∧ (parse_ssh_config args.ssh_config).isNone
    · rw [if_pos hp]
      rfl
    · rw [if_neg hp]
      cases hz : w.zipOk with
      | false =>
        rw [generate_chunks_run_zip_fail]
        rfl
      | true =>
        cases hsp : w.splitOk with
        | false =>
          rw [generate_chunks_run_split_fail]
          rfl
        | true =>
          rw [generate_chunks_run_ok]
          simp only [async_upload_chunks_none_snd]
          cases hf : w.finalizeOk
          · simp only [Bool.false_eq_true, if_false]
            rw [List.filter_append, async_false_no_verify]
            rfl
          · rw [if_pos rfl]
            rw [List.filter_append, List.filter_append, async_false_no_verify]
            rfl
  · rw [if_pos (by simp [hv])]
    rfl

theorem async_none_any_cleanup (ziployId : String) (verify_ssl : Bool)
    (listing : List (List Char)) (ziployMethod : String) (w : World) :
    (async_upload_chunks ziployId verify_ssl listing ziployMethod none w).1.any
      isCleanupEv = false := by
  have h := List.filter_eq_nil_iff.mp
    (async_none_no_cleanup ziployId verify_ssl listing ziployMethod w)
  rw [Bool.eq_false_iff]
  intro hc
  rcases List.any_eq_true.mp hc with ⟨e, he, hpe⟩
  exact h e he hpe

/-- C9 (amended): the claim says the staging directory is removed
unconditionally, including aborted runs.  In fact `main` has no
`try`/`finally`: `cleanup()` runs exactly in the runs that reach the end
normally, so the trace contains the cleanup event iff the run outcome is
`ok`; every fatal abort (validation error, zip or split failure, finalize
failure) exits without removing the staging directory. -/
theorem C9_cleanup_iff_success (args : Args) (w : World) :
    (main_run args w).1.any isCleanupEv = outcomeIsOk (main_run args w).2 := by
  unfold main_run
  by_cases hv : validate_args args.ziployRemoteHost
  · rw [if_neg (by simp [hv])]
    by_cases hp : pyUpper args.ziployMethod = "SSH" ∧ (parse_ssh_config args.ssh_config).isNone
    · rw [if_pos hp]
      rfl
    · rw [if_neg hp]
      cases hz : w.zipOk with
      | false =>
        rw [generate_chunks_run_zip_fail]
        rfl
      | true =>
        cases hsp : w.splitOk with
        | false =>
          rw [generate_chunks_run_split_fail]
          rfl
        | true =>
          rw [generate_chunks_run_ok]
          simp only [async_upload_chunks_none_snd]
          cases hf : w.finalizeOk
          · simp only [Bool.false_eq_true, if_false]
            rw [List.any_append, async_none_any_cleanup]
            rfl
          · rw [if_pos rfl]
            rw [List.any_append, List.any_append, async_none_any_cleanup]
            rfl
  · rw [if_pos (by simp [hv])]
    rfl

/-- C9 (counterexample): a concrete SSH run whose zip step fails: the
staging directory has been created, the process aborts with exit code 1,
and no cleanup event occurs — the staging directory is not removed, so
removal is not unconditional. -/
theorem C9_counterexample_zip_failure_skips_cleanup :
    (main_run ⟨"SSH", "deploy-1", "https://example.com", ["u", "h", "k"], false⟩
        ⟨[7], false, true, fun _ => UploadResult.exn, 0, true⟩).1.filter isCleanupEv = [] ∧
    (main_run ⟨"SSH", "deploy-1", "https://example.com", ["u", "h", "k"], false⟩
        ⟨[7], false, true, fun _ => UploadResult.exn, 0, true⟩).2 = RunOutcome.exited 1 ∧
    Event.stagingCreated ∈
      (main_run ⟨"SSH", "deploy-1", "https://example.com", ["u", "h", "k"], false⟩
        ⟨[7], false, true, fun _ => UploadResult.exn, 0, true⟩).1 := by
  refine ⟨?_, ?_, ?_⟩ <;> decide

/-- C1: for a non-empty archive the splitter with its 5 MiB chunk size
produces exactly `⌈S / C⌉` chunks (written `(S + C - 1) / C`), every chunk
except possibly the last has exactly `C` bytes, the last has between 1 and
`C` bytes, and concatenating the chunks in sequence order reconstructs the
archive byte-for-byte. -/
theorem C1_chunk_splitter_correct (archive : List Nat) (h : 0 < archive.length) :
    (readChunks chunk_size archive).length =
      (archive.length + chunk_size - 1) / chunk_size ∧
    (readChunks chunk_size archive).flatten = archive ∧
    (∀ c ∈ (readChunks chunk_size archive).dropLast, c.length = chunk_size) ∧
    (∀ lc, (readChunks chunk_size archive).getLast? = some lc →
      1 ≤ lc.length ∧ lc.length ≤ chunk_size) := by
  have hC : 0 < chunk_size := by norm_num [chunk_size]
  exact ⟨readChunks_length chunk_size hC archive,
         readChunks_flatten chunk_size hC archive,
         readChunks_dropLast chunk_size hC archive,
         readChunks_getLast chunk_size hC archive⟩

/-- C1 witness: the splitter law instantiated at a one-byte archive. -/
theorem C1_witness :
    0 < ([42] : List Nat).length ∧
    ((readChunks chunk_size [42]).length =
        (([42] : List Nat).length + chunk_size - 1) / chunk_size ∧
     (readChunks chunk_size [42]).flatten = [42] ∧
     (∀ c ∈ (readChunks chunk_size [42]).dropLast, c.length = chunk_size) ∧
     (∀ lc, (readChunks chunk_size [42]).getLast? = some lc →
       1 ≤ lc.length ∧ lc.length ≤ chunk_size)) :=
  ⟨by decide, C1_chunk_splitter_correct [42] (by decide)⟩

/-- C3: when the coordinator runs with method SSH and ssh parameters and
the remote unpack command exits non-zero, `ssh_unzip` calls `sys.exit(1)`:
the ssh command was executed, no finalize request ever appears in the
trace, and the process terminates with the non-zero exit status 1. -/
theorem C3_ssh_failure_blocks_finalize (ziployId : String) (verify_ssl : Bool)
    (listing : List (List Char)) (ziployMethod : String) (p : SshParams) (w : World)
    (hm : pyUpper ziployMethod = "SSH") (hs : w.sshExitCode ≠ 0) :
    (async_upload_chunks ziployId verify_ssl listing ziployMethod (some p) w).1.filter
      isFinalizeEv = [] ∧
    (async_upload_chunks ziployId verify_ssl listing ziployMethod (some p) w).2 =
      RunOutcome.exited 1 ∧
    Event.sshExec p.command ∈
      (async_upload_chunks ziployId verify_ssl listing ziployMethod (some p) w).1 := by
  rw [async_upload_chunks_ssh_fatal ziployId verify_ssl listing ziployMethod p w hm hs]
  refine ⟨?_, rfl, ?_⟩
  · rw [List.filter_append, List.filter_append, List.filter_append]
    rw [uploadSeg_filter_eq_nil _ _ (fun f l => rfl)]
    rw [chunkErrorLogs_filter_eq_nil _ _ rfl]
    rfl
  · simp

/-- C3 witness: a concrete SSH-method coordinator run whose remote command
exits with status 1. -/
theorem C3_witness :
    pyUpper "SSH" = "SSH" ∧
    (⟨[], true, true, fun _ => UploadResult.exn, 1, true⟩ : World).sshExitCode ≠ 0 ∧
    ((async_upload_chunks "id" false [] "SSH"
        (some ⟨some "unzip /var/www/_ziploy.zip", ⟨"u", "h", 22, "k"⟩⟩)
        ⟨[], true, true, fun _ => UploadResult.exn, 1, true⟩).1.filter isFinalizeEv = [] ∧
     (async_upload_chunks "id" false [] "SSH"
        (some ⟨some "unzip /var/www/_ziploy.zip", ⟨"u", "h", 22, "k"⟩⟩)
        ⟨[], true, true, fun _ => UploadResult.exn, 1, true⟩).2 = RunOutcome.exited 1 ∧
     Event.sshExec (some "unzip /var/www/_ziploy.zip") ∈
       (async_upload_chunks "id" false [] "SSH"
          (some ⟨some "unzip /var/www/_ziploy.zip", ⟨"u", "h", 22, "k"⟩⟩)
          ⟨[], true, true, fun _ => UploadResult.exn, 1, true⟩).1) :=
  ⟨by decide, by decide,
   C3_ssh_failure_blocks_finalize "id" false [] "SSH"
     ⟨some "unzip /var/www/_ziploy.zip", ⟨"u", "h", 22, "k"⟩⟩
     ⟨[], true, true, fun _ => UploadResult.exn, 1, true⟩ (by decide) (by decide)⟩

/-- C4: in every non-empty chunk set enumerated by the coordinator exactly
one upload task carries the `last` marker, and it is the task for the chunk
file that sorts last lexicographically (an upper bound of all chunk files
in the Python string order). -/
theorem C4_last_marker_unique (listing : List (List Char)) (m : List Char)
    (h : (get_chunk_files listing).getLast? = some m) :
    ((buildTasks (get_chunk_files listing)).filter (fun t => t.2)).map (fun t => t.1) =
      [m] ∧
    ∀ f ∈ get_chunk_files listing, lexLe f m := by
  constructor
  · unfold buildTasks
    have key := enumFrom_marked_filter ((get_chunk_files listing).length - 1)
      (get_chunk_files listing) 0 m h (by omega)
    simpa [List.enum] using key
  · have hs : (get_chunk_files listing).Sorted lexLe := by
      unfold get_chunk_files
      exact List.sorted_insertionSort lexLe _
    exact sorted_last_le (get_chunk_files listing) m hs h

/-- C4 witness: a directory with two chunk files and one unrelated file. -/
theorem C4_witness :
    (get_chunk_files
        ["_ziploy.zip.z001".toList, "other".toList, "_ziploy.zip.z000".toList]).getLast?
      = some ("_ziploy.zip.z001".toList) ∧
    (((buildTasks (get_chunk_files
          ["_ziploy.zip.z001".toList, "other".toList, "_ziploy.zip.z000".toList])).filter
        (fun t => t.2)).map (fun t => t.1) = ["_ziploy.zip.z001".toList] ∧
     ∀ f ∈ get_chunk_files
         ["_ziploy.zip.z001".toList, "other".toList, "_ziploy.zip.z000".toList],
       lexLe f ("_ziploy.zip.z001".toList)) :=
  ⟨by decide,
   C4_last_marker_unique
     ["_ziploy.zip.z001".toList, "other".toList, "_ziploy.zip.z000".toList]
     ("_ziploy.zip.z001".toList) (by decide)⟩

/-- C5 (counterexample): a coordinator run over an empty staging directory:
the whole trace is one finalize request with null package and destination
and the run reports success — the zero-chunk case is not treated as a
distinct reportable condition. -/
theorem C5_counterexample_silent_null_finalize :
    (async_upload_chunks "deploy-1" false [] "HTTP" none
        ⟨[], true, true, fun _ => UploadResult.exn, 0, true⟩).1 =
      [Event.finalize "deploy-1" none none "HTTP" false] ∧
    (async_upload_chunks "deploy-1" false [] "HTTP" none
        ⟨[], true, true, fun _ => UploadResult.exn, 0, true⟩).2 = RunOutcome.ok := by
  refine ⟨?_, ?_⟩ <;> decide

/-- C5 (amended): with zero chunk files the coordinator attempts no
uploads, but rather than reporting the condition it silently sends the
finalize request with null package and destination, exactly as in a normal
run. -/
theorem C5_empty_chunks_silently_finalize (ziployId : String) (verify_ssl : Bool)
    (listing : List (List Char)) (ziployMethod : String) (w : World)
    (h : get_chunk_files listing = []) :
    (async_upload_chunks ziployId verify_ssl listing ziployMethod none w).1 =
      [Event.finalize ziployId none none ziployMethod verify_ssl] := by
  rw [async_upload_chunks_none_fst, h]
  rfl

/-- C5 witness: a staging listing with no chunk-named files. -/
theorem C5_witness :
    get_chunk_files ["junk.txt".toList] = [] ∧
    (async_upload_chunks "id" true ["junk.txt".toList] "SSH" none
        ⟨[], true, true, fun _ => UploadResult.exn, 0, false⟩).1 =
      [Event.finalize "id" none none "SSH" true] :=
  ⟨by decide,
   C5_empty_chunks_silently_finalize "id" true ["junk.txt".toList] "SSH"
     ⟨[], true, true, fun _ => UploadResult.exn, 0, false⟩ (by decide)⟩

/-- C6: with `return_exceptions=True` no upload failure cancels the
others or aborts the run: even when every chunk upload raises, one upload
task is started per chunk, every exception is logged, and the finalize
request is still sent (with the null pair, since no acknowledgement
arrived). -/
theorem C6_chunk_failures_are_soft (ziployId : String) (verify_ssl : Bool)
    (listing : List (List Char)) (ziployMethod : String) (w : World)
    (hall : ∀ i, w.respOf i = UploadResult.exn) :
    ((async_upload_chunks ziployId verify_ssl listing ziployMethod none w).1.filter
        isUploadEv).length = (get_chunk_files listing).length ∧
    ((async_upload_chunks ziployId verify_ssl listing ziployMethod none w).1.filter
        isLogErrEv).length = (get_chunk_files listing).length ∧
    (async_upload_chunks ziployId verify_ssl listing ziployMethod none w).1.filter
        isFinalizeEv =
      [Event.finalize ziployId none none ziployMethod verify_ssl] := by
  have hrs : ∀ r ∈ (List.range (get_chunk_files listing).length).map w.respOf,
      r = UploadResult.exn := by
    intro r hr
    rcases List.mem_map.mp hr with ⟨i, _, rfl⟩
    exact hall i
  refine ⟨?_, ?_, ?_⟩
  · rw [async_upload_chunks_none_fst, List.filter_append, List.filter_append]
    rw [uploadSeg_filter_self, chunkErrorLogs_filter_eq_nil _ _ rfl]
    simp [buildTasks, isUploadEv]
  · rw [async_upload_chunks_none_fst, List.filter_append, List.filter_append]
    rw [uploadSeg_filter_eq_nil _ _ (fun f l => rfl), chunkErrorLogs_filter_self]
    simp [chunkErrorLogs_length_all_exn _ hrs, isLogErrEv]
  · rw [async_upload_chunks_none_fst, List.filter_append, List.filter_append]
    rw [uploadSeg_filter_eq_nil _ _ (fun f l => rfl)]
    rw [chunkErrorLogs_filter_eq_nil _ _ rfl]
    rw [foldPackageDest_all_exn _ hrs]
    rfl

/-- C6 witness: two chunk files whose uploads both raise. -/
theorem C6_witness :
    (∀ i : Nat,
      (⟨[], true, true, fun _ => UploadResult.exn, 0, true⟩ : World).respOf i =
        UploadResult.exn) ∧
    (((async_upload_chunks "id" false
          ["_ziploy.zip.z000".toList, "_ziploy.zip.z001".toList] "HTTP" none
          ⟨[], true, true, fun _ => UploadResult.exn, 0, true⟩).1.filter
        isUploadEv).length =
      (get_chunk_files
        ["_ziploy.zip.z000".toList, "_ziploy.zip.z001".toList]).length ∧
     ((async_upload_chunks "id" false
          ["_ziploy.zip.z000".toList, "_ziploy.zip.z001".toList] "HTTP" none
          ⟨[], true, true, fun _ => UploadResult.exn, 0, true⟩).1.filter
        isLogErrEv).length =
      (get_chunk_files
        ["_ziploy.zip.z000".toList, "_ziploy.zip.z001".toList]).length ∧
     (async_upload_chunks "id" false
          ["_ziploy.zip.z000".toList, "_ziploy.zip.z001".toList] "HTTP" none
          ⟨[], true, true, fun _ => UploadResult.exn, 0, true⟩).1.filter
        isFinalizeEv =
      [Event.finalize "id" none none "HTTP" false]) :=
  ⟨fun _ => rfl,
   C6_chunk_failures_are_soft "id" false
     ["_ziploy.zip.z000".toList, "_ziploy.zip.z001".toList] "HTTP"
     ⟨[], true, true, fun _ => UploadResult.exn, 0, true⟩ (fun _ => rfl)⟩

/-- C7 (counterexample): two successful acknowledgements, the second with
both keys present but null values (a server reply
`{"package": null, "destination": null}`).  Line 178 tests key presence
only, so the null pair overwrites the real one: the aggregate — and the
finalize descriptor sent on the wire — is null rather than the most
recently seen non-null pair, refuting the claim as stated. -/
theorem C7_counterexample_null_ack_overwrites :
    foldPackageDest
        [UploadResult.ack (some (some "pkg-1")) (some (some "/var/www/site")),
         UploadResult.ack (some none) (some none)] = (none, none) ∧
    specLastNonNullPair
        [UploadResult.ack (some (some "pkg-1")) (some (some "/var/www/site")),
         UploadResult.ack (some none) (some none)] =
      (some "pkg-1", some "/var/www/site") ∧
    Event.finalize "deploy-2" none none "HTTP" false ∈
      (async_upload_chunks "deploy-2" false
          ["_ziploy.zip.z000".toList, "_ziploy.zip.z001".toList] "HTTP" none
          ⟨[], true, true,
           (fun i => if i = 0
              then UploadResult.ack (some (some "pkg-1")) (some (some "/var/www/site"))
              else UploadResult.ack (some none) (some none)),
           0, true⟩).1 := by
  refine ⟨?_, ?_, ?_⟩ <;> decide

/-- C7 (amended): the aggregated pair — and with it the finalize
descriptor in the trace — equals the values of the most recently seen
successful acknowledgement in which both the package and destination KEYS
are present, null values included, overwriting any previous pair; such an
acknowledgement is a non-exception response among the gathered results, so
failed uploads never contribute.  (The claim's "most recently seen
non-null pair" is what the counterexample refutes: a present-but-null pair
also overwrites.) -/
theorem C7_package_dest_last_present_ack (ziployId : String) (verify_ssl : Bool)
    (listing : List (List Char)) (ziployMethod : String) (w : World) :
    foldPackageDest ((List.range (get_chunk_files listing).length).map w.respOf) =
      specLastPresentPair ((List.range (get_chunk_files listing).length).map w.respOf) ∧
    Event.finalize ziployId
        (foldPackageDest ((List.range (get_chunk_files listing).length).map w.respOf)).1
        (foldPackageDest ((List.range (get_chunk_files listing).length).map w.respOf)).2
        ziployMethod verify_ssl ∈
      (async_upload_chunks ziployId verify_ssl listing ziployMethod none w).1 ∧
    (∀ pv dv,
      (((List.range (get_chunk_files listing).length).map w.respOf).filterMap
          ackPair).getLast? = some (pv, dv) →
      foldPackageDest ((List.range (get_chunk_files listing).length).map w.respOf) =
          (pv, dv) ∧
      UploadResult.ack (some pv) (some dv) ∈
        (List.range (get_chunk_files listing).length).map w.respOf) := by
  refine ⟨foldPackageDest_eq_spec _, ?_, ?_⟩
  · rw [async_upload_chunks_none_fst]
    simp
  · intro pv dv hgl
    constructor
    · rw [foldPackageDest_eq_spec]
      unfold specLastPresentPair
      rw [hgl]
    · have hmem : (pv, dv) ∈
          ((List.range (get_chunk_files listing).length).map w.respOf).filterMap
            ackPair := List.mem_of_getLast?_eq_some hgl
      rcases List.mem_filterMap.mp hmem with ⟨r, hr, har⟩
      cases r with
      | exn => simp [ackPair] at har
      | other => simp [ackPair] at har
      | ack p d =>
        cases p with
        | none => simp [ackPair] at har
        | some pv2 =>
          cases d with
          | none => simp [ackPair] at har
          | some dv2 =>
            simp [ackPair] at har
            rw [har.1, har.2] at hr
            exact hr

/-- C7 witness: the second chunk's acknowledgement is the last response
with both keys present; the aggregate equals its values, and that
acknowledgement is among the gathered responses. -/
theorem C7_witness :
    (((List.range (get_chunk_files
          ["_ziploy.zip.z000".toList, "_ziploy.zip.z001".toList]).length).map
        (fun i => if i = 0 then UploadResult.exn
                  else UploadResult.ack (some (some "pkg-1"))
                    (some (some "/var/www/site")))).filterMap ackPair).getLast? =
      some (some "pkg-1", some "/var/www/site") ∧
    (foldPackageDest
        ((List.range (get_chunk_files
            ["_ziploy.zip.z000".toList, "_ziploy.zip.z001".toList]).length).map
          (fun i => if i = 0 then UploadResult.exn
                    else UploadResult.ack (some (some "pkg-1"))
                      (some (some "/var/www/site")))) =
        (some "pkg-1", some "/var/www/site") ∧
     UploadResult.ack (some (some "pkg-1")) (some (some "/var/www/site")) ∈
       (List.range (get_chunk_files
           ["_ziploy.zip.z000".toList, "_ziploy.zip.z001".toList]).length).map
         (fun i => if i = 0 then UploadResult.exn
                   else UploadResult.ack (some (some "pkg-1"))
                     (some (some "/var/www/site")))) :=
  ⟨by decide,
   (C7_package_dest_last_present_ack "id" false
       ["_ziploy.zip.z000".toList, "_ziploy.zip.z001".toList] "HTTP"
       ⟨[], true, true,
        (fun i => if i = 0 then UploadResult.exn
                  else UploadResult.ack (some (some "pkg-1"))
                    (some (some "/var/www/site"))),
        0, true⟩).2.2 (some "pkg-1") (some "/var/www/site") (by decide)⟩

/-- C8 (counterexample): at sequence number 1000 the suffix has four
digits, not three, and the name of chunk 999 does not sort below the name
of chunk 1000, so for chunk sets beyond 1000 chunks lexicographic filename
order diverges from sequence-number order. -/
theorem C8_counterexample_thousandth_chunk :
    (pad3 1000).length = 4 ∧ lexLt (chunkName 999) (chunkName 1000) = false := by
  refine ⟨?_, ?_⟩ <;> decide

/-- C8 (amended): for chunk sets of at most 1000 chunks (sequence numbers
up to 999) the claim holds: every chunk name carries a zero-padded 3-digit
suffix and names are strictly increasing in the sequence number, so sorting
by filename equals sorting by sequence number and the sorted-last file is
the highest-numbered chunk. -/
theorem C8_names_ordered_below_1000 (i j : Nat) (hij : i < j) (hj : j ≤ 999) :
    (pad3 i).length = 3 ∧ (pad3 j).length = 3 ∧
    lexLt (chunkName i) (chunkName j) = true :=
  ⟨pad3_length_of_le i (by omega), pad3_length_of_le j hj, chunkName_lt i j hij hj⟩

/-- C8 witness: chunk 3 sorts before chunk 41, both with 3-digit suffixes. -/
theorem C8_witness :
    (3 : Nat) < 41 ∧ (41 : Nat) ≤ 999 ∧
    ((pad3 3).length = 3 ∧ (pad3 41).length = 3 ∧
     lexLt (chunkName 3) (chunkName 41) = true) :=
  ⟨by decide, by decide, C8_names_ordered_below_1000 3 41 (by decide) (by decide)⟩

end Ziploy
